import Mathlib

/-!
Shallow embedding of the voice-transcript interpretation and cart engine of
src/src/components/VoiceAssistant.tsx (talk-n-eat).

Strings are modelled through their character lists; the JavaScript regexes of
the source are translated into specialised scanners.  Inputs are assumed free
of newline characters (the regexes involved let a dot match any character
except a newline, so on newline-free inputs the translation coincides with the
JavaScript behaviour).  Character-level operations (toLowerCase, trim, the
whitespace and word-character classes) are modelled on their ASCII behaviour,
which covers every transcript the claims mention.
-/

/-- The JavaScript whitespace class, restricted to its common ASCII members. -/
def jsSpace (c : Char) : Bool :=
  c == ' ' || c == '\t' || c == '\n' || c == '\r'

/-- The regex word-character class [A-Za-z0-9_]. -/
def wordChar (c : Char) : Bool :=
  ('a' ≤ c && c ≤ 'z') || ('A' ≤ c && c ≤ 'Z') || ('0' ≤ c && c ≤ '9') || c == '_'

/-- toLowerCase on a character list (ASCII). -/
def lowerL (l : List Char) : List Char := l.map Char.toLower

/-- String.prototype.trim on a character list. -/
def trimL (l : List Char) : List Char :=
  ((l.dropWhile jsSpace).reverse.dropWhile jsSpace).reverse

/-- Repack a character list as a String. -/
def strOf (l : List Char) : String := ⟨l⟩

/-- Does the needle occur as a prefix of the haystack? -/
def leadsWith : List Char → List Char → Bool
  | [], _ => true
  | a :: as, l =>
      match l with
      | [] => false
      | b :: bs => a == b && leadsWith as bs

/-- String.prototype.includes: the needle occurs somewhere in the haystack. -/
def occursIn (needle : List Char) : List Char → Bool
  | [] => needle.isEmpty
  | c :: cs => leadsWith needle (c :: cs) || occursIn needle cs

/-- split(/[.!?]+/) before its filter step: splitting at every separator
character; runs of separators leave empty segments that the filter in
parseCommand discards, exactly as the + in the regex would have. -/
def splitSeps : List Char → List (List Char)
  | [] => [[]]
  | c :: cs =>
      if c == '.' || c == '!' || c == '?' then [] :: splitSeps cs
      else
        match splitSeps cs with
        | [] => [[c]]
        | g :: gs => (c :: g) :: gs

/-- The suffix pattern \s+(.+)$ applied at the start of l: at least one
whitespace character, then the (greedy, backtracking) remainder captured as
the group.  When everything after the whitespace run is empty the engine
backtracks and captures the last whitespace character. -/
def spaceRest (l : List Char) : Option (List Char) :=
  let ws := l.takeWhile jsSpace
  let tail := l.dropWhile jsSpace
  if ws.isEmpty then none
  else if !tail.isEmpty then some tail
  else if 2 ≤ ws.length then some (l.drop (l.length - 1))
  else none

/-- Leftmost match of the pattern kw\s+(.+)$, returning the captured group:
the scan tries every start position from the left, as the regex engine does. -/
def scanMatch (kw : List Char) : List Char → Option (List Char)
  | [] => none
  | c :: cs =>
      match (if leadsWith kw (c :: cs) then spaceRest ((c :: cs).drop kw.length) else none) with
      | some g => some g
      | none => scanMatch kw cs

/-- The anchored pattern ^(\d+|\w+)\s+(.+)$: a maximal nonempty run of word
characters, whitespace, and the remainder.  The \d+ alternative never
produces a different capture than \w+ here, since a partial digit run is
always followed by another word character, which \s+ rejects. -/
def matchQtyItem (l : List Char) : Option (List Char × List Char) :=
  let q := l.takeWhile wordChar
  if q.isEmpty then none
  else
    match spaceRest (l.drop q.length) with
    | some item => some (q, item)
    | none => none

/-! ### Number words (generateNumberWords / wordToNumber / parseQuantity) -/

def unitsWords : List String :=
  ["zero", "one", "two", "three", "four", "five", "six", "seven", "eight", "nine",
   "ten", "eleven", "twelve", "thirteen", "fourteen", "fifteen", "sixteen",
   "seventeen", "eighteen", "nineteen"]

def tensWords : List String :=
  ["", "", "twenty", "thirty", "forty", "fifty", "sixty", "seventy", "eighty", "ninety"]

/-- generateNumberWords: units for 0..19 (bounded by maxNumber), then for each
i from 20 to maxNumber either the exact-tens word or both the hyphenated and
the space-separated compound word.  The record is modelled as an association
list in insertion order; no key is ever assigned twice. -/
def generateNumberWords (maxNumber : Nat := 50) : List (String × Nat) :=
  let part1 := (unitsWords.enum.filter (fun p => p.1 ≤ maxNumber)).map (fun p => (p.2, p.1))
  let part2 := ((List.range (maxNumber + 1)).filter (fun i => 20 ≤ i)).flatMap (fun i =>
    let ten := i / 10
    let unit := i % 10
    if unit = 0 then [(tensWords.getD ten "", i)]
    else
      [(tensWords.getD ten "" ++ "-" ++ unitsWords.getD unit "", i),
       (tensWords.getD ten "" ++ " " ++ unitsWords.getD unit "", i)])
  part1 ++ part2

/-- The table is generated once, for maxNumber = 50. -/
def numberWordsMapping : List (String × Nat) := generateNumberWords 50

/-- wordToNumber: look the lowercased word up in the table. -/
def wordToNumber (word : String) : Option Nat :=
  List.lookup (strOf (lowerL word.toList)) numberWordsMapping

/-- Value of a digit run. -/
def digitsVal (l : List Char) : Nat :=
  l.foldl (fun n c => n * 10 + (c.toNat - 48)) 0

/-- JavaScript parseInt(s, 10): skip leading whitespace, optional sign, then
the longest digit prefix; NaN (none) when no digit follows. -/
def jsParseInt (s : String) : Option Int :=
  let l := s.toList.dropWhile jsSpace
  match l with
  | [] => none
  | c :: t =>
      if c = '-' then
        (let ds := t.takeWhile Char.isDigit
         if ds.isEmpty then none else some (-(Int.ofNat (digitsVal ds))))
      else if c = '+' then
        (let ds := t.takeWhile Char.isDigit
         if ds.isEmpty then none else some (Int.ofNat (digitsVal ds)))
      else
        (let ds := (c :: t).takeWhile Char.isDigit
         if ds.isEmpty then none else some (Int.ofNat (digitsVal ds)))

/-- parseQuantity: first the integer parse of the literal token, then the
number-word table, otherwise unresolved. -/
def parseQuantity (quantityText : String) : Option Int :=
  match jsParseInt quantityText with
  | some n => some n
  | none => (wordToNumber quantityText).map (fun n => (n : Int))

/-! ### Data model -/

structure FoodItem where
  id : String
  name : String
  price : Nat
  image : String
  category : String
  description : Option String
deriving DecidableEq

structure CartItem where
  id : String
  name : String
  price : Nat
  image : String
  category : String
  description : Option String
  quantity : Int
deriving DecidableEq

/-- The spread { ...menuItem, quantity } building a CartItem from a FoodItem. -/
def mkCartItem (m : FoodItem) (q : Int) : CartItem :=
  { id := m.id, name := m.name, price := m.price, image := m.image,
    category := m.category, description := m.description, quantity := q }

inductive CommandAction where
  | addItem (item : String) (quantity : Int)
  | removeItem (item : String) (quantity : Option Int)
  | resetCart
  | viewCart
  | backToMenu
  | startRecording
  | stopRecording
  | unknown
deriving DecidableEq

/-! ### Command phrases and status messages -/

def kwStartRecordingL : List Char := "start recording".toList
def kwStopRecordingL : List Char := "stop recording".toList
def kwGoToCartL : List Char := "go to cart".toList
def kwAddMoreL : List Char := "add more".toList
def kwBackToMenuL : List Char := "back to menu".toList
def kwResetL : List Char := "reset".toList
def kwClearCartL : List Char := "clear cart".toList
def kwRemoveL : List Char := "remove".toList
def kwAddL : List Char := "add".toList
def kwAddSpaceL : List Char := "add ".toList

def msgNowListening : String := "Now actively listening for commands..."
def msgStopped : String := "Recording stopped. Say \"start recording\" to begin again."
def msgCleared : String := "Cart has been cleared."
def msgViewing : String := "Viewing cart."
def msgBackToMenu : String := "Back to menu. Say \"go to cart\" to view your order."
def msgUnknown : String := "Command not recognized. Please try again."

def notFoundMsg (item : String) : String :=
  "Item \"" ++ item ++ "\" not found in menu."
def addedMsg (q : Int) (name : String) : String :=
  "Added " ++ toString q ++ " " ++ name ++ "(s) to cart."
def removedMsg (q : Int) (name : String) : String :=
  "Removed " ++ toString q ++ " " ++ name ++ "(s) from cart."
def removedAllMsg (name : String) : String :=
  "Removed all " ++ name ++ "(s) from cart."

/-! ### parseCommand -/

/-- transcript.toLowerCase().trim(), the normalisation at the head of
parseCommand and of the transcript-processing effect. -/
def normalizeTranscript (t : String) : String := strOf (trimL (lowerL t.toList))

/-- The standalone-item fallback at the end of the sentence loop: skip pure
digit strings, otherwise add one of the named item. -/
def bareStage (t : List Char) : List CommandAction :=
  match matchQtyItem t with
  | some (qText, itemText) =>
      match parseQuantity (strOf qText) with
      | some q => [CommandAction.addItem (strOf (trimL itemText)) q]
      | none => [CommandAction.addItem (strOf t) 1]
  | none =>
      if t.all Char.isDigit then [] else [CommandAction.addItem (strOf t) 1]

/-- The explicit add branch, guarded by startsWith('add '); when its match or
quantity resolution fails control falls through exactly as in the source. -/
def addStage (t : List Char) : List CommandAction :=
  match (if leadsWith kwAddSpaceL t then scanMatch kwAddL t else none) with
  | some g =>
      let addText := trimL g
      match matchQtyItem addText with
      | some (qText, itemText) =>
          match parseQuantity (strOf qText) with
          | some q => [CommandAction.addItem (strOf (trimL itemText)) q]
          | none => [CommandAction.addItem (strOf addText) 1]
      | none => [CommandAction.addItem (strOf addText) 1]
  | none => bareStage t

/-- The remove branch, guarded by includes('remove'); the REMOVE_ITEM command
is pushed with whatever parseQuantity returned, resolved or not. -/
def removeStage (t : List Char) : List CommandAction :=
  match (if occursIn kwRemoveL t then scanMatch kwRemoveL t else none) with
  | some g =>
      let removeText := trimL g
      match matchQtyItem removeText with
      | some (qText, itemText) =>
          [CommandAction.removeItem (strOf (trimL itemText)) (parseQuantity (strOf qText))]
      | none => [CommandAction.removeItem (strOf removeText) none]
  | none => addStage t

/-- The body of the per-sentence loop of parseCommand. -/
def processSentence (sentence : List Char) : List CommandAction :=
  let t := trimL sentence
  if t.isEmpty then []
  else if occursIn kwStartRecordingL t then [CommandAction.startRecording]
  else if occursIn kwStopRecordingL t then [CommandAction.stopRecording]
  else if occursIn kwGoToCartL t then [CommandAction.viewCart]
  else if occursIn kwAddMoreL t || occursIn kwBackToMenuL t then [CommandAction.backToMenu]
  else if occursIn kwResetL t || occursIn kwClearCartL t then [CommandAction.resetCart]
  else removeStage t

/-- parseCommand: normalise, split into sentences, extract commands per
sentence, and fall back to UNKNOWN when nothing was extracted from a
non-empty transcript. -/
def parseCommand (transcript : String) : List CommandAction :=
  let normalizedText := normalizeTranscript transcript
  let sentences := (splitSeps normalizedText.toList).filter (fun s => !(trimL s).isEmpty)
  let commands := sentences.flatMap processSentence
  if commands.isEmpty && !(normalizedText == "") then [CommandAction.unknown] else commands

/-! ### Menu lookup and cart transforms -/

/-- findMenuItem: first catalog item whose lowercased name contains the
lowercased fragment. -/
def findMenuItem (itemName : String) (menuItems : List FoodItem) : Option FoodItem :=
  menuItems.find? (fun item => occursIn (lowerL itemName.toList) (lowerL item.name.toList))

/-- The ADD_ITEM cart update: merge into the first entry with the item's id,
or append a new entry. -/
def addToCart : List CartItem → FoodItem → Int → List CartItem
  | [], m, q => [mkCartItem m q]
  | c :: cs, m, q =>
      if c.id = m.id then { c with quantity := c.quantity + q } :: cs
      else c :: addToCart cs m q

/-- The REMOVE_ITEM cart update: with a quantity, subtract and delete the
entry when the result is zero or negative; without one, delete the entry;
when the item is absent the cart is returned unchanged. -/
def removeFromCart : List CartItem → FoodItem → Option Int → List CartItem
  | [], _, _ => []
  | c :: cs, m, q? =>
      if c.id = m.id then
        match q? with
        | some q =>
            if c.quantity - q ≤ 0 then (c :: cs).filter (fun it => it.id != m.id)
            else { c with quantity := c.quantity - q } :: cs
        | none => (c :: cs).filter (fun it => it.id != m.id)
      else c :: removeFromCart cs m q?

/-! ### Session state and the transcript-processing effect -/

structure SessionState where
  cart : List CartItem
  isListening : Bool
  statusMessage : String
  lastProcessedTranscript : String
  showCart : Bool
  shouldResetTranscript : Bool
deriving DecidableEq

def initialState : SessionState :=
  { cart := [], isListening := false,
    statusMessage := "Say \"start recording\" to begin",
    lastProcessedTranscript := "", showCart := false, shouldResetTranscript := false }

/-- One arm of the command switch of the transcript-processing effect. -/
def applyCommand (menuItems : List FoodItem) (st : SessionState) :
    CommandAction → SessionState
  | CommandAction.startRecording => st
  | CommandAction.stopRecording =>
      { st with isListening := false, statusMessage := msgStopped,
                shouldResetTranscript := true }
  | CommandAction.addItem item quantity =>
      match findMenuItem item menuItems with
      | some menuItem =>
          { st with cart := addToCart st.cart menuItem quantity,
                    statusMessage := addedMsg quantity menuItem.name }
      | none => { st with statusMessage := notFoundMsg item }
  | CommandAction.removeItem item q? =>
      match findMenuItem item menuItems with
      | some menuItem =>
          { st with cart := removeFromCart st.cart menuItem q?,
                    statusMessage :=
                      match q? with
                      | some q => removedMsg q menuItem.name
                      | none => removedAllMsg menuItem.name }
      | none => { st with statusMessage := notFoundMsg item }
  | CommandAction.resetCart => { st with cart := [], statusMessage := msgCleared }
  | CommandAction.viewCart => { st with showCart := true, statusMessage := msgViewing }
  | CommandAction.backToMenu => { st with showCart := false, statusMessage := msgBackToMenu }
  | CommandAction.unknown => { st with statusMessage := msgUnknown }

/-- The transcript-processing effect: idempotency guard, the always-on check
for "start recording", and command processing gated on the listening flag. -/
def processTranscript (menuItems : List FoodItem) (st : SessionState)
    (transcript : String) : SessionState :=
  if transcript = "" then st
  else if transcript = st.lastProcessedTranscript then st
  else if occursIn kwStartRecordingL (normalizeTranscript transcript).toList
         && !st.isListening then
    { st with lastProcessedTranscript := transcript, isListening := true,
              statusMessage := msgNowListening }
  else if st.isListening then
    List.foldl (applyCommand menuItems) { st with lastProcessedTranscript := transcript }
      (parseCommand transcript)
  else { st with lastProcessedTranscript := transcript }

/-! ### Demonstration catalog and concrete inputs used by the theorems -/

def idliSambhar : FoodItem :=
  { id := "1", name := "Idli Sambhar", price := 60, image := "", category := "South Indian", description := none }
def mangoLassi : FoodItem :=
  { id := "2", name := "Mango Lassi", price := 80, image := "", category := "Beverages", description := none }
def gulabJamun : FoodItem :=
  { id := "3", name := "Gulab Jamun", price := 90, image := "", category := "Desserts", description := none }

def demoMenu : List FoodItem := [idliSambhar, mangoLassi, gulabJamun]

def listeningState : SessionState := { initialState with isListening := true }

def gjState : SessionState :=
  { initialState with isListening := true, cart := [mkCartItem gulabJamun 3] }

def trStartRecording : String := "start recording"
def trZeroIdli : String := "0 idli"
def tsZeroIdli : List String := [trStartRecording, trZeroIdli]
def trMulti : String := "2 idli 3 mango lassi"
def fragMulti : String := "idli 3 mango lassi"
def trRemoveGJ : String := "remove 1 gulab jamun"
def trXyz : String := "xyzfood"
def trXyzThenIdli : String := "xyzfood. 2 idli"
def trFiller : String := "  Give Me DOSA Please  "
def trFillerKept : String := "give me dosa please"
def trFillerStripped : String := "dosa"

/-- View of a cart entry as the pair the scenarios talk about. -/
def cartView (c : CartItem) : String × Int := (c.name, c.quantity)

/-! ### Derived observations used by the theorems -/

/-- The itemId key of each cart entry, in order. -/
def cartIds (cart : List CartItem) : List String := cart.map (fun c => c.id)

/-- Quantity stored for an itemId (first entry with that id), if any. -/
def cartQty (cart : List CartItem) (i : String) : Option Int :=
  (cart.find? (fun c => c.id == i)).map (fun c => c.quantity)

/-- The cart invariant the code actually maintains: keys are pairwise
distinct and every stored quantity is nonnegative. -/
def CartInv (cart : List CartItem) : Prop :=
  (cartIds cart).Nodup ∧ ∀ c ∈ cart, 0 ≤ c.quantity

/-- An extracted command whose Add quantity (if it is an Add) is nonnegative. -/
def addQtyOk : CommandAction → Prop
  | CommandAction.addItem _ q => 0 ≤ q
  | _ => True

def strEmpty : String := ""
def strTwentyOneHyphen : String := "twenty-one"
def strTwentyOneSpace : String := "twenty one"
def strTwentyDigits : String := "20"
def strXyzWord : String := "xyz"
def strNineteen : String := "nineteen"
def strTwentyWord : String := "twenty"
def strFifty : String := "fifty"
def strSixty : String := "sixty"
def mangoTokL : List Char := "mango".toList
def lassiTokL : List Char := "lassi".toList

/-! ### Helper lemmas: characters, scanners -/

theorem wordChar_not_space (c : Char) (h : wordChar c = true) : jsSpace c = false := by
  cases hj : jsSpace c with
  | false => rfl
  | true =>
      exfalso
      simp only [jsSpace, Bool.or_eq_true, beq_iff_eq] at hj
      rcases hj with ((h1 | h1) | h1) | h1 <;> subst h1 <;> simp [wordChar] at h

theorem leadsWith_append (kw rest : List Char) : leadsWith kw (kw ++ rest) = true := by
  induction kw with
  | nil => rfl
  | cons a as ih => simp [leadsWith, ih]

theorem occursIn_of_leadsWith (n l : List Char) (h : leadsWith n l = true) :
    occursIn n l = true := by
  cases l with
  | nil =>
      cases n with
      | nil => rfl
      | cons a as => simp [leadsWith] at h
  | cons c cs => simp [occursIn, h]

theorem dropWhile_eq_self_of_head (p : Char → Bool) (l : List Char)
    (h : ∀ c, l.head? = some c → p c = false) : l.dropWhile p = l := by
  cases l with
  | nil => rfl
  | cons c cs => simp [List.dropWhile_cons, h c rfl]

theorem takeWhile_eq_nil_of_head (p : Char → Bool) (l : List Char)
    (h : ∀ c, l.head? = some c → p c = false) : l.takeWhile p = [] := by
  cases l with
  | nil => rfl
  | cons c cs => simp [List.takeWhile_cons, h c rfl]

theorem trimL_eq_self (l : List Char)
    (h1 : ∀ c, l.head? = some c → jsSpace c = false)
    (h2 : ∀ c, l.getLast? = some c → jsSpace c = false) : trimL l = l := by
  unfold trimL
  rw [dropWhile_eq_self_of_head jsSpace l h1]
  rw [dropWhile_eq_self_of_head jsSpace l.reverse
        (fun c hc => h2 c (by rwa [List.head?_reverse] at hc))]
  exact l.reverse_reverse

theorem takeWhile_all_append (p : Char → Bool) (w y : List Char)
    (h : ∀ c ∈ w, p c = true) : (w ++ y).takeWhile p = w ++ y.takeWhile p := by
  induction w with
  | nil => rfl
  | cons a as ih =>
      have hmem : ∀ c ∈ as, p c = true := fun c hc => h c (List.mem_cons_of_mem a hc)
      calc ((a :: as) ++ y).takeWhile p
          = (a :: (as ++ y)).takeWhile p := by rw [List.cons_append]
        _ = a :: (as ++ y).takeWhile p := by
              rw [List.takeWhile_cons, if_pos (h a (List.mem_cons_self a as))]
        _ = a :: (as ++ y.takeWhile p) := by rw [ih hmem]
        _ = (a :: as) ++ y.takeWhile p := by rw [List.cons_append]

theorem spaceRest_space_cons (y : List Char) (hy : y ≠ [])
    (hh : ∀ c, y.head? = some c → jsSpace c = false) : spaceRest (' ' :: y) = some y := by
  unfold spaceRest
  have ht : (' ' :: y).takeWhile jsSpace = [' '] := by
    simp [List.takeWhile_cons, show jsSpace ' ' = true from rfl,
      takeWhile_eq_nil_of_head jsSpace y hh]
  have hd : (' ' :: y).dropWhile jsSpace = y := by
    simp [List.dropWhile_cons, show jsSpace ' ' = true from rfl,
      dropWhile_eq_self_of_head jsSpace y hh]
  simp [ht, hd, hy]

theorem scanMatch_hit (kw : List Char) (c : Char) (cs g : List Char)
    (h1 : leadsWith kw (c :: cs) = true)
    (h2 : spaceRest ((c :: cs).drop kw.length) = some g) :
    scanMatch kw (c :: cs) = some g := by
  unfold scanMatch
  simp [h1, h2]

theorem matchQtyItem_append (w rest : List Char) (hw : w ≠ [])
    (hwc : ∀ c ∈ w, wordChar c = true) (hr : rest ≠ [])
    (hrh : ∀ c, rest.head? = some c → jsSpace c = false) :
    matchQtyItem (w ++ ' ' :: rest) = some (w, rest) := by
  unfold matchQtyItem
  have htw : (w ++ ' ' :: rest).takeWhile wordChar = w := by
    rw [takeWhile_all_append wordChar w (' ' :: rest) hwc]
    simp [List.takeWhile_cons, show wordChar ' ' = false from rfl]
  have hdw : (w ++ ' ' :: rest).drop w.length = ' ' :: rest := List.drop_left w (' ' :: rest)
  rw [htw]
  simp [hdw, spaceRest_space_cons rest hr hrh, List.isEmpty_iff, hw]

theorem jsParseInt_word_nonneg (c : Char) (cs : List Char) (hc : wordChar c = true)
    (k : Int) (h : jsParseInt (strOf (c :: cs)) = some k) : 0 ≤ k := by
  unfold jsParseInt at h
  have hdrop : (strOf (c :: cs)).toList.dropWhile jsSpace = c :: cs := by
    show (c :: cs).dropWhile jsSpace = c :: cs
    simp [List.dropWhile_cons, wordChar_not_space c hc]
  simp only [hdrop] at h
  have hm : c ≠ '-' := by intro he; subst he; simp [wordChar] at hc
  have hp : c ≠ '+' := by intro he; subst he; simp [wordChar] at hc
  simp only [hm, hp, if_false] at h
  by_cases he : ((c :: cs).takeWhile Char.isDigit).isEmpty
  · simp [he] at h
  · simp only [he, if_false, Option.some.injEq] at h
    simp at h
    omega

theorem parseQuantity_word_nonneg (c : Char) (cs : List Char)
    (hc : wordChar c = true) (n : Int)
    (h : parseQuantity (strOf (c :: cs)) = some n) : 0 ≤ n := by
  unfold parseQuantity at h
  cases hpi : jsParseInt (strOf (c :: cs)) with
  | some k =>
      rw [hpi] at h
      have hk := jsParseInt_word_nonneg c cs hc k hpi
      simp at h
      omega
  | none =>
      rw [hpi] at h
      cases hw : wordToNumber (strOf (c :: cs)) with
      | none => rw [hw] at h; simp at h
      | some m =>
          rw [hw] at h
          simp at h
          omega

theorem matchQtyItem_some (l q item : List Char) (h : matchQtyItem l = some (q, item)) :
    ∃ c cs, q = c :: cs ∧ wordChar c = true := by
  unfold matchQtyItem at h
  by_cases he : (l.takeWhile wordChar).isEmpty
  · simp [he] at h
  · simp only [he, if_false] at h
    cases hs : spaceRest (l.drop (l.takeWhile wordChar).length) with
    | none => rw [hs] at h; simp at h
    | some it =>
        rw [hs] at h
        have h2 : (l.takeWhile wordChar, it) = (q, item) := by simpa using h
        have hq : l.takeWhile wordChar = q := congrArg Prod.fst h2
        cases hq' : l.takeWhile wordChar with
        | nil => rw [hq'] at he; simp at he
        | cons a as =>
            refine ⟨a, as, by rw [← hq, hq'], ?_⟩
            exact List.mem_takeWhile_imp (by rw [hq']; exact List.mem_cons_self a as)

/-! ### Helper lemmas: cart transforms -/

theorem find?_filter_ne_id (l : List CartItem) (i : String) :
    (l.filter (fun it => it.id != i)).find? (fun c => c.id == i) = none := by
  induction l with
  | nil => rfl
  | cons c cs ih =>
      by_cases h : c.id = i
      · simp [List.filter_cons, h, ih]
      · simp [List.filter_cons, h, List.find?_cons, ih]

theorem mem_cartIds_addToCart (cart : List CartItem) (m : FoodItem) (q : Int) (x : String)
    (h : x ∈ cartIds (addToCart cart m q)) : x ∈ cartIds cart ∨ x = m.id := by
  induction cart with
  | nil =>
      simp [addToCart, cartIds, mkCartItem] at h
      exact Or.inr h
  | cons c cs ih =>
      by_cases hid : c.id = m.id
      · simp only [addToCart, if_pos hid, cartIds, List.map_cons, List.mem_cons] at h ⊢
        exact Or.inl h
      · simp only [addToCart, if_neg hid, cartIds, List.map_cons, List.mem_cons] at h ⊢
        rcases h with h | h
        · exact Or.inl (Or.inl h)
        · rcases ih h with h' | h'
          · exact Or.inl (Or.inr h')
          · exact Or.inr h'

theorem addToCart_inv (cart : List CartItem) (m : FoodItem) (q : Int)
    (hinv : CartInv cart) (hq : 0 ≤ q) : CartInv (addToCart cart m q) := by
  induction cart with
  | nil =>
      refine ⟨by simp [addToCart, cartIds, mkCartItem], ?_⟩
      intro c hc
      simp [addToCart] at hc
      subst hc
      simpa [mkCartItem] using hq
  | cons c cs ih =>
      obtain ⟨hnd, hpos⟩ := hinv
      simp only [cartIds, List.map_cons, List.nodup_cons] at hnd
      obtain ⟨hni, hnd'⟩ := hnd
      have hinv' : CartInv cs := ⟨hnd', fun c' hc' => hpos c' (List.mem_cons_of_mem c hc')⟩
      by_cases hid : c.id = m.id
      · refine ⟨?_, ?_⟩
        · simp only [addToCart, if_pos hid, cartIds, List.map_cons, List.nodup_cons]
          exact ⟨by simpa [cartIds] using hni, by simpa [cartIds] using hnd'⟩
        · intro c' hc'
          simp only [addToCart, if_pos hid, List.mem_cons] at hc'
          rcases hc' with hc' | hc'
          · subst hc'
            have h1 := hpos c (List.mem_cons_self c cs)
            simp only []
            omega
          · exact hpos c' (List.mem_cons_of_mem c hc')
      · have ihinv := ih hinv'
        refine ⟨?_, ?_⟩
        · simp only [addToCart, if_neg hid, cartIds, List.map_cons, List.nodup_cons]
          refine ⟨?_, by simpa [cartIds] using ihinv.1⟩
          intro hmem
          rcases mem_cartIds_addToCart cs m q c.id (by simpa [cartIds] using hmem) with h' | h'
          · exact hni (by simpa [cartIds] using h')
          · exact hid h'
        · intro c' hc'
          simp only [addToCart, if_neg hid, List.mem_cons] at hc'
          rcases hc' with hc' | hc'
          · subst hc'; exact hpos c' (List.mem_cons_self c' cs)
          · exact ihinv.2 c' hc'

theorem cartIds_removeFromCart_sublist (cart : List CartItem) (m : FoodItem)
    (q? : Option Int) :
    List.Sublist (cartIds (removeFromCart cart m q?)) (cartIds cart) := by
  induction cart with
  | nil => simp [removeFromCart]
  | cons c cs ih =>
      by_cases hid : c.id = m.id
      · cases q? with
        | some q =>
            by_cases hz : c.quantity - q ≤ 0
            · simp only [removeFromCart, if_pos hid, if_pos hz, cartIds]
              exact (List.filter_sublist _).map _
            · simp only [removeFromCart, if_pos hid, if_neg hz, cartIds, List.map_cons]
              exact List.Sublist.refl _
        | none =>
            simp only [removeFromCart, if_pos hid, cartIds]
            exact (List.filter_sublist _).map _
      · simp only [removeFromCart, if_neg hid, cartIds, List.map_cons]
        exact List.Sublist.cons₂ _ ih

theorem removeFromCart_quantities (cart : List CartItem) (m : FoodItem) (q? : Option Int)
    (hpos : ∀ c ∈ cart, 0 ≤ c.quantity) :
    ∀ c' ∈ removeFromCart cart m q?, 0 ≤ c'.quantity := by
  induction cart with
  | nil => intro c' hc'; simp [removeFromCart] at hc'
  | cons c cs ih =>
      have hpos' : ∀ c' ∈ cs, 0 ≤ c'.quantity :=
        fun c' hc' => hpos c' (List.mem_cons_of_mem c hc')
      intro c' hc'
      by_cases hid : c.id = m.id
      · cases q? with
        | some q =>
            by_cases hz : c.quantity - q ≤ 0
            · simp only [removeFromCart, if_pos hid, if_pos hz] at hc'
              exact hpos c' (List.mem_of_mem_filter hc')
            · simp only [removeFromCart, if_pos hid, if_neg hz, List.mem_cons] at hc'
              rcases hc' with hc' | hc'
              · subst hc'; simp only []; omega
              · exact hpos' c' hc'
        | none =>
            simp only [removeFromCart, if_pos hid] at hc'
            exact hpos c' (List.mem_of_mem_filter hc')
      · simp only [removeFromCart, if_neg hid, List.mem_cons] at hc'
        rcases hc' with hc' | hc'
        · subst hc'; exact hpos c' (List.mem_cons_self c' cs)
        · exact ih hpos' c' hc'

theorem removeFromCart_inv (cart : List CartItem) (m : FoodItem) (q? : Option Int)
    (hinv : CartInv cart) : CartInv (removeFromCart cart m q?) :=
  ⟨hinv.1.sublist (cartIds_removeFromCart_sublist cart m q?),
   removeFromCart_quantities cart m q? hinv.2⟩

theorem addToCart_merge (K : List CartItem) (i : FoodItem) (q1 q2 : Int) :
    addToCart (addToCart K i q1) i q2 = addToCart K i (q1 + q2) := by
  induction K with
  | nil => simp [addToCart, mkCartItem]
  | cons c cs ih =>
      by_cases hid : c.id = i.id
      · simp [addToCart, hid, add_assoc]
      · simp [addToCart, hid, ih]

theorem cartQty_removeFromCart_some (cart : List CartItem) (m : FoodItem) (n ex : Int)
    (h : cartQty cart m.id = some ex) :
    cartQty (removeFromCart cart m (some n)) m.id =
      if 0 < ex - n then some (ex - n) else none := by
  induction cart with
  | nil => simp [cartQty] at h
  | cons c cs ih =>
      by_cases hid : c.id = m.id
      · have hex : ex = c.quantity := by
          simp [cartQty, List.find?_cons, hid] at h
          omega
        subst hex
        by_cases hz : c.quantity - n ≤ 0
        · simp only [removeFromCart, if_pos hid, if_pos hz]
          rw [if_neg (by omega)]
          simp [cartQty, find?_filter_ne_id]
        · simp only [removeFromCart, if_pos hid, if_neg hz]
          rw [if_pos (by omega)]
          simp [cartQty, List.find?_cons, hid]
      · have h' : cartQty cs m.id = some ex := by
          simpa [cartQty, List.find?_cons, hid] using h
        simp only [removeFromCart, if_neg hid]
        have hq : cartQty (c :: removeFromCart cs m (some n)) m.id =
            cartQty (removeFromCart cs m (some n)) m.id := by
          simp [cartQty, List.find?_cons, hid]
        rw [hq, ih h']

theorem cartQty_removeFromCart_all (cart : List CartItem) (m : FoodItem) :
    cartQty (removeFromCart cart m none) m.id = none := by
  induction cart with
  | nil => simp [removeFromCart, cartQty]
  | cons c cs ih =>
      by_cases hid : c.id = m.id
      · simp only [removeFromCart, if_pos hid]
        simp [cartQty, find?_filter_ne_id]
      · simp only [removeFromCart, if_neg hid]
        simpa [cartQty, List.find?_cons, hid] using ih

theorem removeFromCart_absent (cart : List CartItem) (m : FoodItem) (q? : Option Int)
    (h : cartQty cart m.id = none) : removeFromCart cart m q? = cart := by
  induction cart with
  | nil => rfl
  | cons c cs ih =>
      by_cases hid : c.id = m.id
      · exfalso
        simp [cartQty, List.find?_cons, hid] at h
      · have h' : cartQty cs m.id = none := by
          simpa [cartQty, List.find?_cons, hid] using h
        simp only [removeFromCart, if_neg hid]
        rw [ih h']

/-! ### Helper lemmas: commands and the session effect -/

theorem bareStage_addOk (t : List Char) (cmd : CommandAction)
    (h : cmd ∈ bareStage t) : addQtyOk cmd := by
  unfold bareStage at h
  cases hm : matchQtyItem t with
  | some p =>
      obtain ⟨qText, itemText⟩ := p
      simp only [hm] at h
      cases hp : parseQuantity (strOf qText) with
      | some q =>
          simp only [hp] at h
          simp at h
          subst h
          obtain ⟨c, cs, hq, hc⟩ := matchQtyItem_some t qText itemText hm
          subst hq
          exact parseQuantity_word_nonneg c cs hc q hp
      | none =>
          simp only [hp] at h
          simp at h
          subst h
          simp [addQtyOk]
  | none =>
      simp only [hm] at h
      by_cases hd : t.all Char.isDigit
      · simp [hd] at h
      · simp [hd] at h
        subst h
        simp [addQtyOk]

theorem addStage_addOk (t : List Char) (cmd : CommandAction)
    (h : cmd ∈ addStage t) : addQtyOk cmd := by
  unfold addStage at h
  cases hs : (if leadsWith kwAddSpaceL t then scanMatch kwAddL t else none) with
  | none => simp only [hs] at h; exact bareStage_addOk t cmd h
  | some g =>
      simp only [hs] at h
      cases hm : matchQtyItem (trimL g) with
      | some p =>
          obtain ⟨qText, itemText⟩ := p
          simp only [hm] at h
          cases hp : parseQuantity (strOf qText) with
          | some q =>
              simp only [hp] at h
              simp at h
              subst h
              obtain ⟨c, cs, hq, hc⟩ := matchQtyItem_some _ qText itemText hm
              subst hq
              exact parseQuantity_word_nonneg c cs hc q hp
          | none =>
              simp only [hp] at h
              simp at h
              subst h
              simp [addQtyOk]
      | none =>
          simp only [hm] at h
          simp at h
          subst h
          simp [addQtyOk]

theorem removeStage_addOk (t : List Char) (cmd : CommandAction)
    (h : cmd ∈ removeStage t) : addQtyOk cmd := by
  unfold removeStage at h
  cases hs : (if occursIn kwRemoveL t then scanMatch kwRemoveL t else none) with
  | none => simp only [hs] at h; exact addStage_addOk t cmd h
  | some g =>
      simp only [hs] at h
      cases hm : matchQtyItem (trimL g) with
      | some p =>
          obtain ⟨qText, itemText⟩ := p
          simp only [hm] at h
          simp at h
          subst h
          simp [addQtyOk]
      | none =>
          simp only [hm] at h
          simp at h
          subst h
          simp [addQtyOk]

theorem processSentence_addOk (s : List Char) (cmd : CommandAction)
    (h : cmd ∈ processSentence s) : addQtyOk cmd := by
  simp only [processSentence] at h
  by_cases h0 : (trimL s).isEmpty = true
  · rw [if_pos h0] at h; simp at h
  · rw [if_neg h0] at h
    by_cases h1 : occursIn kwStartRecordingL (trimL s) = true
    · rw [if_pos h1] at h; simp at h; subst h; simp [addQtyOk]
    · rw [if_neg h1] at h
      by_cases h2 : occursIn kwStopRecordingL (trimL s) = true
      · rw [if_pos h2] at h; simp at h; subst h; simp [addQtyOk]
      · rw [if_neg h2] at h
        by_cases h3 : occursIn kwGoToCartL (trimL s) = true
        · rw [if_pos h3] at h; simp at h; subst h; simp [addQtyOk]
        · rw [if_neg h3] at h
          by_cases h4 : (occursIn kwAddMoreL (trimL s) || occursIn kwBackToMenuL (trimL s)) = true
          · rw [if_pos h4] at h; simp at h; subst h; simp [addQtyOk]
          · rw [if_neg h4] at h
            by_cases h5 : (occursIn kwResetL (trimL s) || occursIn kwClearCartL (trimL s)) = true
            · rw [if_pos h5] at h; simp at h; subst h; simp [addQtyOk]
            · rw [if_neg h5] at h
              exact removeStage_addOk _ cmd h

theorem parseCommand_addOk (t : String) (cmd : CommandAction)
    (h : cmd ∈ parseCommand t) : addQtyOk cmd := by
  simp only [parseCommand] at h
  split at h
  · simp at h
    subst h
    simp [addQtyOk]
  · rw [List.mem_flatMap] at h
    obtain ⟨s, _, hs⟩ := h
    exact processSentence_addOk s cmd hs

theorem applyCommand_last (menu : List FoodItem) (st : SessionState) (cmd : CommandAction) :
    (applyCommand menu st cmd).lastProcessedTranscript = st.lastProcessedTranscript := by
  cases cmd with
  | addItem i q => cases hf : findMenuItem i menu <;> simp [applyCommand, hf]
  | removeItem i q? => cases hf : findMenuItem i menu <;> simp [applyCommand, hf]
  | resetCart => simp [applyCommand]
  | viewCart => simp [applyCommand]
  | backToMenu => simp [applyCommand]
  | startRecording => simp [applyCommand]
  | stopRecording => simp [applyCommand]
  | unknown => simp [applyCommand]

theorem applyCommand_cartInv (menu : List FoodItem) (st : SessionState)
    (cmd : CommandAction) (hinv : CartInv st.cart) (hok : addQtyOk cmd) :
    CartInv (applyCommand menu st cmd).cart := by
  cases cmd with
  | addItem i q =>
      cases hf : findMenuItem i menu with
      | some m => simpa [applyCommand, hf] using addToCart_inv st.cart m q hinv hok
      | none => simpa [applyCommand, hf] using hinv
  | removeItem i q? =>
      cases hf : findMenuItem i menu with
      | some m => simpa [applyCommand, hf] using removeFromCart_inv st.cart m q? hinv
      | none => simpa [applyCommand, hf] using hinv
  | resetCart =>
      refine ⟨by simp [applyCommand, cartIds], ?_⟩
      intro c hc
      simp [applyCommand] at hc
  | viewCart => simpa [applyCommand] using hinv
  | backToMenu => simpa [applyCommand] using hinv
  | startRecording => simpa [applyCommand] using hinv
  | stopRecording => simpa [applyCommand] using hinv
  | unknown => simpa [applyCommand] using hinv

theorem foldl_applyCommand_last (menu : List FoodItem) :
    ∀ (cmds : List CommandAction) (st : SessionState),
      (List.foldl (applyCommand menu) st cmds).lastProcessedTranscript =
        st.lastProcessedTranscript := by
  intro cmds
  induction cmds with
  | nil => intro st; rfl
  | cons c cs ih => intro st; rw [List.foldl_cons, ih, applyCommand_last]

theorem foldl_applyCommand_cartInv (menu : List FoodItem) :
    ∀ (cmds : List CommandAction) (st : SessionState), CartInv st.cart →
      (∀ c ∈ cmds, addQtyOk c) →
      CartInv (List.foldl (applyCommand menu) st cmds).cart := by
  intro cmds
  induction cmds with
  | nil => intro st hinv _; exact hinv
  | cons c cs ih =>
      intro st hinv hok
      rw [List.foldl_cons]
      exact ih _ (applyCommand_cartInv menu st c hinv (hok c (List.mem_cons_self c cs)))
        (fun c' hc' => hok c' (List.mem_cons_of_mem c hc'))

theorem processTranscript_guard (menu : List FoodItem) (st : SessionState) (t : String)
    (h : t = st.lastProcessedTranscript) : processTranscript menu st t = st := by
  unfold processTranscript
  by_cases he : t = ""
  · rw [if_pos he]
  · rw [if_neg he, if_pos h]

theorem processTranscript_last (menu : List FoodItem) (st : SessionState) (t : String)
    (h0 : ¬t = "") (h1 : ¬t = st.lastProcessedTranscript) :
    (processTranscript menu st t).lastProcessedTranscript = t := by
  unfold processTranscript
  rw [if_neg h0, if_neg h1]
  split
  · rfl
  · split
    · rw [foldl_applyCommand_last]
    · rfl

theorem processTranscript_cartInv (menu : List FoodItem) (st : SessionState) (t : String)
    (hinv : CartInv st.cart) : CartInv (processTranscript menu st t).cart := by
  unfold processTranscript
  split
  · exact hinv
  · split
    · exact hinv
    · split
      · exact hinv
      · split
        · exact foldl_applyCommand_cartInv menu (parseCommand t)
            { st with lastProcessedTranscript := t } hinv
            (fun c hc => parseCommand_addOk t c hc)
        · exact hinv

theorem foldl_processTranscript_cartInv (menu : List FoodItem) :
    ∀ (ts : List String) (st : SessionState), CartInv st.cart →
      CartInv (ts.foldl (processTranscript menu) st).cart := by
  intro ts
  induction ts with
  | nil => intro st h; exact h
  | cons t ts ih =>
      intro st h
      rw [List.foldl_cons]
      exact ih _ (processTranscript_cartInv menu st t h)

/-! ### Claim theorems -/

/-- C1 (counterexample): after the transcripts "start recording" and "0 idli",
the cart holds an entry of quantity 0, so quantities in reachable carts are
not always at least 1. -/
theorem c1_counterexample :
    ¬ (∀ c ∈ (tsZeroIdli.foldl (processTranscript demoMenu) initialState).cart,
        1 ≤ c.quantity) := by
  decide

/-- C1 (amended): starting from the empty cart, after any sequence of
processed transcripts no two cart entries share an itemId and every entry's
quantity is nonnegative.  The original bound of 1 fails because an Add whose
parsed quantity is 0 stores a zero-quantity entry; a Remove still deletes
rather than stores a nonpositive quantity. -/
theorem c1_cart_invariant_amended (menu : List FoodItem) (ts : List String) :
    ((ts.foldl (processTranscript menu) initialState).cart.map (fun c => c.id)).Nodup ∧
      ∀ c ∈ (ts.foldl (processTranscript menu) initialState).cart, 0 ≤ c.quantity := by
  have h : CartInv (ts.foldl (processTranscript menu) initialState).cart :=
    foldl_processTranscript_cartInv menu ts initialState
      ⟨by simp [initialState, cartIds], by simp [initialState]⟩
  exact ⟨h.1, h.2⟩

/-- C1 (witness): the amended invariant instantiated on the zero-quantity run. -/
theorem c1_cart_invariant_witness :
    (0 : Int) ≤ (mkCartItem idliSambhar 0).quantity :=
  (c1_cart_invariant_amended demoMenu tsZeroIdli).2 (mkCartItem idliSambhar 0) (by decide)

/-- C2 (counterexample): processing "2 idli 3 mango lassi" while actively
listening on the empty cart does not produce the two-entry cart the claim
predicts. -/
theorem c2_counterexample :
    ¬ ((processTranscript demoMenu listeningState trMulti).cart.map cartView =
        [(idliSambhar.name, 2), (mangoLassi.name, 3)]) := by
  decide

/-- C2 (amended): the scan does not stop at the next quantity token; the
utterance "2 idli 3 mango lassi" yields the single operation
Add(fragment "idli 3 mango lassi", 2), whose fragment resolves against no
catalog item, so the cart stays empty and a not-found status is emitted. -/
theorem c2_single_add_amended :
    parseCommand trMulti = [CommandAction.addItem fragMulti 2] ∧
    (processTranscript demoMenu listeningState trMulti).cart = [] ∧
    (processTranscript demoMenu listeningState trMulti).statusMessage = notFoundMsg fragMulti := by
  refine ⟨by decide, by decide, by decide⟩

/-- C3: processing the same transcript twice in succession, without an
intervening reset of the idempotency guard, equals processing it once: the
second delivery changes nothing (it is skipped by the guard). -/
theorem c3_transcript_idempotent (menu : List FoodItem) (st : SessionState) (t : String) :
    processTranscript menu (processTranscript menu st t) t = processTranscript menu st t := by
  by_cases h0 : t = ""
  · subst h0
    have he : processTranscript menu st "" = st := by
      unfold processTranscript
      rw [if_pos rfl]
    rw [he]
    exact he
  · by_cases h1 : t = st.lastProcessedTranscript
    · rw [processTranscript_guard menu st t h1]
      exact processTranscript_guard menu st t h1
    · exact processTranscript_guard menu _ t (processTranscript_last menu st t h0 h1).symm

/-- C4: Remove with quantity n on a present item leaves max(0, existing - n),
deleting the entry when that is 0; Remove without quantity deletes the entry;
Remove on an absent item leaves the cart unchanged; and "remove 1 gulab
jamun" on the cart [(Gulab Jamun, 3)] yields [(Gulab Jamun, 2)]. -/
theorem c4_remove_semantics :
    (∀ (cart : List CartItem) (m : FoodItem) (n ex : Int),
        cartQty cart m.id = some ex →
          cartQty (removeFromCart cart m (some n)) m.id =
            if 0 < ex - n then some (ex - n) else none) ∧
    (∀ (cart : List CartItem) (m : FoodItem),
        cartQty (removeFromCart cart m none) m.id = none) ∧
    (∀ (cart : List CartItem) (m : FoodItem) (q? : Option Int),
        cartQty cart m.id = none → removeFromCart cart m q? = cart) ∧
    (processTranscript demoMenu gjState trRemoveGJ).cart.map cartView =
      [(gulabJamun.name, 2)] := by
  refine ⟨?_, ?_, ?_, by decide⟩
  · intro cart m n ex h
    exact cartQty_removeFromCart_some cart m n ex h
  · intro cart m
    exact cartQty_removeFromCart_all cart m
  · intro cart m q? h
    exact removeFromCart_absent cart m q? h

/-- C4 (witness): the remove law applied at the concrete scenario cart. -/
theorem c4_remove_semantics_witness :
    cartQty (removeFromCart [mkCartItem gulabJamun 3] gulabJamun (some 1))
        gulabJamun.id = some 2 ∧
    removeFromCart [] gulabJamun (some 1) = [] := by
  constructor
  · have h := c4_remove_semantics.1 [mkCartItem gulabJamun 3] gulabJamun 1 3 (by decide)
    rw [h]
    decide
  · exact c4_remove_semantics.2.2.1 [] gulabJamun (some 1) (by decide)

/-- C5: an Add whose fragment matches no catalog item only sets the not-found
status message and leaves the rest of the state (in particular the cart)
unchanged; the utterance "xyzfood" mutates nothing and emits the not-found
status; and in "xyzfood. 2 idli" processing continues past the failure, so
the second operation still lands in the cart. -/
theorem c5_resolution_failure :
    (∀ (menu : List FoodItem) (st : SessionState) (item : String) (q : Int),
        findMenuItem item menu = none →
          applyCommand menu st (CommandAction.addItem item q) =
            { st with statusMessage := notFoundMsg item }) ∧
    (processTranscript demoMenu listeningState trXyz).cart = listeningState.cart ∧
    (processTranscript demoMenu listeningState trXyz).statusMessage = notFoundMsg trXyz ∧
    (processTranscript demoMenu listeningState trXyzThenIdli).cart.map cartView =
      [(idliSambhar.name, 2)] := by
  refine ⟨?_, by decide, by decide, by decide⟩
  intro menu st item q hf
  simp [applyCommand, hf]

/-- C5 (witness): the unmatched-Add law at the concrete fragment "xyzfood". -/
theorem c5_resolution_failure_witness :
    applyCommand demoMenu initialState (CommandAction.addItem trXyz 1) =
      { initialState with statusMessage := notFoundMsg trXyz } :=
  c5_resolution_failure.1 demoMenu initialState trXyz 1 (by decide)

/-- C6: adding q1 of a catalog item and then q2 of the same item produces the
same cart as a single add of q1 + q2 (merge law). -/
theorem c6_add_merge (K : List CartItem) (i : FoodItem) (q1 q2 : Int)
    (_h1 : 1 ≤ q1) (_h2 : 1 ≤ q2) :
    addToCart (addToCart K i q1) i q2 = addToCart K i (q1 + q2) :=
  addToCart_merge K i q1 q2

/-- C6 (witness): the merge law at a concrete item and quantities. -/
theorem c6_add_merge_witness :
    addToCart (addToCart [] idliSambhar 1) idliSambhar 2 =
      addToCart [] idliSambhar (1 + 2) :=
  c6_add_merge [] idliSambhar 1 2 (by decide) (by decide)

/-- C7 (counterexample): the number-word table does not contain the spelled
tens beyond the 50 cap: "sixty" is absent, and parseQuantity leaves it
unresolved rather than mapping it to 60. -/
theorem c7_counterexample :
    wordToNumber strSixty = none ∧ parseQuantity strSixty = none := by
  refine ⟨by decide, by decide⟩

/-- C7 (amended): parseQuantity parses the literal integer first, then looks
the lowercased token up in the 0..50 table (units 0..19; tens 20, 30, 40, 50
only, since the generation stops at maxNumber = 50; compounds 21..49 stored
hyphenated and space-separated), and is unresolved when both fail. -/
theorem c7_parse_quantity_amended :
    parseQuantity strTwentyOneHyphen = some 21 ∧
    parseQuantity strTwentyOneSpace = some 21 ∧
    parseQuantity strTwentyDigits = some 20 ∧
    parseQuantity strXyzWord = none ∧
    wordToNumber strNineteen = some 19 ∧
    wordToNumber strTwentyWord = some 20 ∧
    wordToNumber strFifty = some 50 ∧
    wordToNumber strSixty = none := by
  refine ⟨by decide, by decide, by decide, by decide, by decide, by decide, by decide, by decide⟩

/-- C8: while idle (not actively listening) a transcript never mutates the
cart; the processing either does nothing (empty or guarded duplicate), only
records the transcript in the idempotency guard, or — exactly when the
normalized transcript contains "start recording" — switches to listening. -/
theorem c8_idle_gating (menu : List FoodItem) (st : SessionState) (t : String)
    (h : st.isListening = false) :
    (processTranscript menu st t).cart = st.cart ∧
    (processTranscript menu st t = st ∨
      processTranscript menu st t = { st with lastProcessedTranscript := t } ∨
      processTranscript menu st t =
        { st with lastProcessedTranscript := t, isListening := true,
                  statusMessage := msgNowListening }) := by
  unfold processTranscript
  by_cases h0 : t = ""
  · rw [if_pos h0]
    exact ⟨rfl, Or.inl rfl⟩
  · rw [if_neg h0]
    by_cases h1 : t = st.lastProcessedTranscript
    · rw [if_pos h1]
      exact ⟨rfl, Or.inl rfl⟩
    · rw [if_neg h1]
      by_cases h2 : occursIn kwStartRecordingL (normalizeTranscript t).toList = true
      · have hb : (occursIn kwStartRecordingL (normalizeTranscript t).toList
            && !st.isListening) = true := by
          rw [h2, h]
          rfl
        rw [if_pos hb]
        exact ⟨rfl, Or.inr (Or.inr rfl)⟩
      · have hb : ¬ ((occursIn kwStartRecordingL (normalizeTranscript t).toList
            && !st.isListening) = true) := by
          simp only [Bool.and_eq_true]
          intro hand
          exact h2 hand.1
        rw [if_neg hb]
        have hl : ¬ (st.isListening = true) := by
          rw [h]
          exact Bool.false_ne_true
        rw [if_neg hl]
        exact ⟨rfl, Or.inr (Or.inl rfl)⟩

/-- C8 (witness): the gate instantiated on the idle initial state and the
item utterance "0 idli": the cart stays empty. -/
theorem c8_idle_gating_witness :
    (processTranscript demoMenu initialState trZeroIdli).cart = initialState.cart :=
  (c8_idle_gating demoMenu initialState trZeroIdli rfl).1

/-- C9 (counterexample): the normalizer keeps filler words: on
"give me dosa please" it returns the input unchanged instead of the
filler-stripped "dosa" the claim predicts. -/
theorem c9_counterexample :
    normalizeTranscript trFillerKept = trFillerKept ∧
    ¬ (normalizeTranscript trFillerKept = trFillerStripped) := by
  refine ⟨by decide, by decide⟩

/-- C9 (amended): the transcript normalizer only lowercases and trims: it is
total, maps the empty string to the empty string, and strips no filler
prefix or suffix (they survive, lowercased and trimmed). -/
theorem c9_normalizer_amended :
    (∀ s : String, normalizeTranscript s = strOf (trimL (lowerL s.toList))) ∧
    normalizeTranscript strEmpty = strEmpty ∧
    normalizeTranscript trFiller = trFillerKept := by
  refine ⟨fun s => rfl, by decide, by decide⟩

theorem scanMatch_self (kw x g : List Char) (hkw : kw ≠ [])
    (h2 : spaceRest x = some g) : scanMatch kw (kw ++ x) = some g := by
  cases kw with
  | nil => exact absurd rfl hkw
  | cons a as =>
      exact scanMatch_hit (a :: as) a (as ++ x) g
        (leadsWith_append (a :: as) x)
        (by rw [show (a :: (as ++ x)).drop (a :: as).length = x from List.drop_left (a :: as) x, h2])

theorem head_not_p_of_dropWhile_eq (p : Char → Bool) (l : List Char)
    (h : l.dropWhile p = l) : ∀ c, l.head? = some c → p c = false := by
  intro c hc
  cases l with
  | nil => simp at hc
  | cons a as =>
      simp at hc
      subst hc
      by_contra hp
      have hp' : p a = true := by simpa using hp
      rw [List.dropWhile_cons, if_pos hp'] at h
      have hlen := congrArg List.length h
      have hle := (List.dropWhile_sublist p (l := as)).length_le
      simp at hlen
      omega

theorem trimL_facts (l : List Char) (h : trimL l = l) :
    (∀ c, l.head? = some c → jsSpace c = false) ∧
    (∀ c, l.getLast? = some c → jsSpace c = false) := by
  have e1 : (trimL l).length = l.length := congrArg List.length h
  have e2 : (trimL l).length ≤ (l.dropWhile jsSpace).length := by
    unfold trimL
    calc ((l.dropWhile jsSpace).reverse.dropWhile jsSpace).reverse.length
        = ((l.dropWhile jsSpace).reverse.dropWhile jsSpace).length := by
          rw [List.length_reverse]
      _ ≤ (l.dropWhile jsSpace).reverse.length :=
          (List.dropWhile_sublist jsSpace).length_le
      _ = (l.dropWhile jsSpace).length := by rw [List.length_reverse]
  have e3 := (List.dropWhile_sublist jsSpace (l := l)).length_le
  have hd1 : l.dropWhile jsSpace = l :=
    (List.dropWhile_sublist jsSpace).eq_of_length (by omega)
  have hd2 : l.reverse.dropWhile jsSpace = l.reverse := by
    have h' : (l.reverse.dropWhile jsSpace).reverse = l := by
      have := h
      unfold trimL at this
      rwa [hd1] at this
    calc l.reverse.dropWhile jsSpace
        = (l.reverse.dropWhile jsSpace).reverse.reverse := by rw [List.reverse_reverse]
      _ = l.reverse := by rw [h']
  refine ⟨head_not_p_of_dropWhile_eq jsSpace l hd1, ?_⟩
  intro c hc
  exact head_not_p_of_dropWhile_eq jsSpace l.reverse hd2 c
    (by rwa [List.head?_reverse])

/-- C10: in a clause "remove w rest" — w a nonempty run of word characters,
rest a nonempty trimmed remainder, and the clause containing no other
command phrase — the first token w is always consumed as the quantity
candidate and never kept in the item fragment: the single extracted
operation is Remove(fragment rest, parseQuantity w), a quantified removal
when w resolves as a quantity and a remove-entirely otherwise. -/
theorem c10_remove_consumes_first_token (w rest : List Char)
    (hw : w ≠ []) (hwc : ∀ c ∈ w, wordChar c = true)
    (hr : rest ≠ []) (htr : trimL rest = rest)
    (hn1 : occursIn kwStartRecordingL (kwRemoveL ++ ' ' :: (w ++ ' ' :: rest)) = false)
    (hn2 : occursIn kwStopRecordingL (kwRemoveL ++ ' ' :: (w ++ ' ' :: rest)) = false)
    (hn3 : occursIn kwGoToCartL (kwRemoveL ++ ' ' :: (w ++ ' ' :: rest)) = false)
    (hn4 : occursIn kwAddMoreL (kwRemoveL ++ ' ' :: (w ++ ' ' :: rest)) = false)
    (hn5 : occursIn kwBackToMenuL (kwRemoveL ++ ' ' :: (w ++ ' ' :: rest)) = false)
    (hn6 : occursIn kwResetL (kwRemoveL ++ ' ' :: (w ++ ' ' :: rest)) = false)
    (hn7 : occursIn kwClearCartL (kwRemoveL ++ ' ' :: (w ++ ' ' :: rest)) = false) :
    processSentence (kwRemoveL ++ ' ' :: (w ++ ' ' :: rest)) =
      [CommandAction.removeItem (strOf rest) (parseQuantity (strOf w))] := by
  obtain ⟨hrh, hrl⟩ := trimL_facts rest htr
  have hwhead : ∀ c, w.head? = some c → wordChar c = true := by
    intro c hc
    cases w with
    | nil => simp at hc
    | cons a as =>
        simp at hc
        subst hc
        exact hwc a (List.mem_cons_self a as)
  have hwspace : ∀ c, (w ++ ' ' :: rest).head? = some c → jsSpace c = false := by
    intro c hc
    rw [List.head?_append_of_ne_nil w hw] at hc
    exact wordChar_not_space c (hwhead c hc)
  have hlast2 : (w ++ ' ' :: rest).getLast? = rest.getLast? := by
    have hre : w ++ ' ' :: rest = (w ++ [' ']) ++ rest := by simp
    rw [hre, List.getLast?_append_of_ne_nil (w ++ [' ']) hr]
  have htrimG : trimL (w ++ ' ' :: rest) = w ++ ' ' :: rest :=
    trimL_eq_self _ hwspace (fun c hc => hrl c (by rwa [hlast2] at hc))
  have hclhead : ∀ c, (kwRemoveL ++ ' ' :: (w ++ ' ' :: rest)).head? = some c →
      jsSpace c = false := by
    intro c hc
    rw [List.head?_append_of_ne_nil kwRemoveL (by decide),
        show kwRemoveL.head? = some 'r' from rfl] at hc
    simp at hc
    subst hc
    decide
  have hcllast : ∀ c, (kwRemoveL ++ ' ' :: (w ++ ' ' :: rest)).getLast? = some c →
      jsSpace c = false := by
    intro c hc
    rw [List.getLast?_append_of_ne_nil kwRemoveL (by simp)] at hc
    have hre : (' ' :: (w ++ ' ' :: rest)) = ((' ' :: w) ++ [' ']) ++ rest := by simp
    rw [hre, List.getLast?_append_of_ne_nil _ hr] at hc
    exact hrl c hc
  have htrimC : trimL (kwRemoveL ++ ' ' :: (w ++ ' ' :: rest)) =
      kwRemoveL ++ ' ' :: (w ++ ' ' :: rest) :=
    trimL_eq_self _ hclhead hcllast
  have hsp : spaceRest (' ' :: (w ++ ' ' :: rest)) = some (w ++ ' ' :: rest) :=
    spaceRest_space_cons _ (by simp) hwspace
  have hscan : scanMatch kwRemoveL (kwRemoveL ++ ' ' :: (w ++ ' ' :: rest)) =
      some (w ++ ' ' :: rest) :=
    scanMatch_self kwRemoveL (' ' :: (w ++ ' ' :: rest)) _ (by decide) hsp
  have hocc : occursIn kwRemoveL (kwRemoveL ++ ' ' :: (w ++ ' ' :: rest)) = true :=
    occursIn_of_leadsWith _ _ (leadsWith_append _ _)
  have hmatch : matchQtyItem (w ++ ' ' :: rest) = some (w, rest) :=
    matchQtyItem_append w rest hw hwc hr hrh
  simp only [processSentence, htrimC]
  rw [if_neg (by simp)]
  rw [if_neg (by simp [hn1])]
  rw [if_neg (by simp [hn2])]
  rw [if_neg (by simp [hn3])]
  rw [if_neg (by simp [hn4, hn5])]
  rw [if_neg (by simp [hn6, hn7])]
  simp [removeStage, hocc, hscan, htrimG, hmatch, htr]

/-- C10 (witness): the clause "remove mango lassi" consumes "mango" as the
(unresolvable) quantity token and emits a remove-entirely for "lassi". -/
theorem c10_remove_consumes_first_token_witness :
    processSentence (kwRemoveL ++ ' ' :: (mangoTokL ++ ' ' :: lassiTokL)) =
      [CommandAction.removeItem (strOf lassiTokL) (parseQuantity (strOf mangoTokL))] :=
  c10_remove_consumes_first_token mangoTokL lassiTokL (by decide) (by decide)
    (by decide) (by decide) (by decide) (by decide) (by decide) (by decide) (by decide)
    (by decide) (by decide)
